import Mathlib

/-!
Shallow embedding of the `photo-dater` core (src/files_interval.rs, src/files.rs,
src/file.rs, src/directory.rs).

Rust strings are modelled as `List Char`; `chrono::NaiveDate` as a `Date`
structure of numeric fields with the ISO `%Y-%m-%d` parser modelled after
chrono's documented behaviour (greedy numeric fields of bounded width,
mandatory literal hyphens, whole-string consumption, calendar validity check);
`chrono::NaiveDateTime` as `Date` plus clock fields, ordered lexicographically
(chrono's `Ord` agrees with this on all valid values).  `PathBuf` is modelled
as a list of components; `with_file_name` replaces the last component.
Negative years and non-UTF-8 paths are not modelled: no claim exercises them.
-/

namespace PhotoDater

/-- Decimal digit character for `k < 10`, as produced by Rust's integer
`Display`. -/
def decChar (k : Nat) : Char := Char.ofNat (48 + k)

/-- Accumulator loop of decimal rendering: prepends the digits of `n`,
structurally recursive on a fuel argument (any fuel `≥ n` is enough). -/
def natDigitsFuel : Nat → Nat → List Char → List Char
  | 0, _, acc => acc
  | fuel + 1, n, acc =>
    if n = 0 then acc else natDigitsFuel fuel (n / 10) (decChar (n % 10) :: acc)

/-- Decimal rendering of a natural number, as Rust's `{}` format. -/
def natRepr (n : Nat) : List Char :=
  if n = 0 then ['0'] else natDigitsFuel n n []

/-- Decimal rendering of an integer. -/
def intRepr (n : Int) : List Char :=
  if n < 0 then '-' :: natRepr n.natAbs else natRepr n.natAbs

/-- Rust's `{:0w}` zero-padded format (and chrono's zero-padded numeric
format specifiers) for natural numbers. -/
def zeroPad (w n : Nat) : List Char :=
  List.replicate (w - (natRepr n).length) '0' ++ natRepr n

/-- Numeric value of a digit string (most significant first). -/
def digitsToNat (s : List Char) : Nat :=
  s.foldl (fun acc c => acc * 10 + (c.toNat - 48)) 0

/-- Greedy scan of at most `w` leading ASCII digits, returning them and the
rest of the input; models chrono's bounded-width numeric field scanner. -/
def takeDigits : Nat → List Char → List Char × List Char
  | 0, s => ([], s)
  | _ + 1, [] => ([], [])
  | w + 1, c :: cs =>
    if c.isDigit then
      let p := takeDigits w cs
      (c :: p.1, p.2)
    else ([], c :: cs)

/-- Rust's `str::split_once`: split at the first occurrence of `sep`,
returning the parts before and after it, or `none` if `sep` does not occur. -/
def splitOnce (sep : List Char) : List Char → Option (List Char × List Char)
  | [] => if sep.isEmpty then some ([], []) else none
  | c :: cs =>
    if sep.isPrefixOf (c :: cs) then some ([], (c :: cs).drop sep.length)
    else (splitOnce sep cs).map fun p => (c :: p.1, p.2)

/-- A calendar date (`chrono::NaiveDate`), fields as plain naturals. -/
structure Date where
  year : Nat
  month : Nat
  day : Nat
deriving DecidableEq, Repr

/-- Gregorian leap-year rule. -/
def isLeap (y : Nat) : Bool :=
  (y % 4 == 0 && y % 100 != 0) || y % 400 == 0

/-- Number of days of month `m` of year `y` (months outside 1..12 never reach
this in validated contexts). -/
def daysInMonth (y m : Nat) : Nat :=
  match m with
  | 1 => 31
  | 2 => if isLeap y then 29 else 28
  | 3 => 31
  | 4 => 30
  | 5 => 31
  | 6 => 30
  | 7 => 31
  | 8 => 31
  | 9 => 30
  | 10 => 31
  | 11 => 30
  | 12 => 31
  | _ => 0

/-- `chrono::NaiveDate::from_ymd_opt`: calendar validity check. -/
def fromYmd (y m d : Nat) : Option Date :=
  if 1 ≤ m ∧ m ≤ 12 ∧ 1 ≤ d ∧ d ≤ daysInMonth y m then some ⟨y, m, d⟩
  else none

/-- A numeric field of chrono's parser: at least one digit (else a parse
error), at most `w` digits, greedily. -/
def parseNum (w : Nat) (s : List Char) : Option (Nat × List Char) :=
  let p := takeDigits w s
  if p.1.isEmpty then none else some (digitsToNat p.1, p.2)

/-- A literal of chrono's parser: the next character must be `c`. -/
def expectChar (c : Char) : List Char → Option (List Char)
  | [] => none
  | x :: xs => if x = c then some xs else none

/-- `NaiveDate::from_str`, i.e. parsing with `"%Y-%m-%d"`: an up-to-4-digit
year, a hyphen, an up-to-2-digit month, a hyphen, an up-to-2-digit day,
nothing left over, and the triple must form a real calendar date. -/
def parseDate (s : List Char) : Option Date :=
  match parseNum 4 s with
  | none => none
  | some (y, r1) =>
    match expectChar '-' r1 with
    | none => none
    | some r2 =>
      match parseNum 2 r2 with
      | none => none
      | some (m, r3) =>
        match expectChar '-' r3 with
        | none => none
        | some r4 =>
          match parseNum 2 r4 with
          | none => none
          | some (d, r5) => if r5.isEmpty then fromYmd y m d else none

/-- chrono's `%Y-%m-%d` formatting of a date (years up to 9999). -/
def fmtDate (d : Date) : List Char :=
  zeroPad 4 d.year ++ '-' :: (zeroPad 2 d.month ++ '-' :: zeroPad 2 d.day)

/-- Strict lexicographic order on dates (chrono's `Ord` on `NaiveDate`). -/
def dateLtB (a b : Date) : Bool :=
  if a.year ≠ b.year then decide (a.year < b.year)
  else if a.month ≠ b.month then decide (a.month < b.month)
  else decide (a.day < b.day)

/-- A timestamp (`chrono::NaiveDateTime`): date plus clock time. -/
structure DateTime where
  date : Date
  hour : Nat
  minute : Nat
  second : Nat
deriving DecidableEq, Repr

/-- Lexicographic `≤` on timestamps (chrono's `Ord` on `NaiveDateTime`). -/
def dtLeB (a b : DateTime) : Bool :=
  if a.date.year ≠ b.date.year then decide (a.date.year < b.date.year)
  else if a.date.month ≠ b.date.month then decide (a.date.month < b.date.month)
  else if a.date.day ≠ b.date.day then decide (a.date.day < b.date.day)
  else if a.hour ≠ b.hour then decide (a.hour < b.hour)
  else if a.minute ≠ b.minute then decide (a.minute < b.minute)
  else decide (a.second ≤ b.second)

/-- Number of leap years in `1..=n`. -/
def leapsUpTo (n : Nat) : Nat := n / 4 - n / 100 + n / 400

/-- Days of year `y` strictly before month `m`. -/
def daysBeforeMonth (y m : Nat) : Nat :=
  let l : Nat := if isLeap y then 1 else 0
  match m with
  | 1 => 0
  | 2 => 31
  | 3 => 59 + l
  | 4 => 90 + l
  | 5 => 120 + l
  | 6 => 151 + l
  | 7 => 181 + l
  | 8 => 212 + l
  | 9 => 243 + l
  | 10 => 273 + l
  | 11 => 304 + l
  | 12 => 334 + l
  | _ => 365 + l

/-- Day count of a date from a fixed epoch; subtraction of two of these is
chrono's day difference between `NaiveDate`s. -/
def dayNumber (d : Date) : Nat :=
  (d.year - 1) * 365 + leapsUpTo (d.year - 1) + daysBeforeMonth d.year d.month
    + (d.day - 1)

/-- Second count of a timestamp from the epoch; differences of these are
chrono `TimeDelta`s in seconds. -/
def dtToSec (t : DateTime) : Nat :=
  dayNumber t.date * 86400 + t.hour * 3600 + t.minute * 60 + t.second

/-- `FilesInterval` (src/files_interval.rs): creation-time range between the
first and last photo. -/
structure FilesInterval where
  ivFrom : DateTime
  ivTo : DateTime
deriving DecidableEq, Repr

/-- The `" - "` separator of the two-date directory-name form. -/
def sepStr : List Char := [' ', '-', ' ']

/-- chrono's `%H:%M:%S` clock rendering. -/
def fmtTime (t : DateTime) : List Char :=
  zeroPad 2 t.hour ++ ':' :: (zeroPad 2 t.minute ++ ':' :: zeroPad 2 t.second)

/-- `Display` of a `NaiveDateTime` (`"%Y-%m-%d %H:%M:%S"`, no sub-second
part). -/
def fmtDateTime (t : DateTime) : List Char :=
  fmtDate t.date ++ ' ' :: fmtTime t

/-- `FilesInterval::from_date`: whole-day bounds, erring when `from > to`. -/
def fromDateD (f t : Date) : Except (List Char) FilesInterval :=
  if dateLtB t f then
    .error ("from date ".toList ++ fmtDate f ++ " is higher than to date ".toList
      ++ fmtDate t)
  else
    .ok ⟨⟨f, 0, 0, 0⟩, ⟨t, 23, 59, 59⟩⟩

/-- First stage of `FilesInterval::try_split`: the date-recognition chain
before `from_date` is applied — the two-date branch (with the `yyyy-mm-dd`,
`mm-dd` and `dd` second-date fallbacks) and then the single-day fallback. -/
def stageSplit (name : List Char) : Option (Date × Date × List Char) :=
  let branch1 : Option (Date × Date × List Char) :=
    match splitOnce sepStr name with
    | none => none
    | some (fromS, rest) =>
      match splitOnce [' '] rest with
      | none => none
      | some (toS, rest2) =>
        match parseDate fromS with
        | none => none
        | some f =>
          match parseDate toS with
          | some t => some (f, t, rest2)
          | none =>
            match parseDate (zeroPad 4 f.year ++ '-' :: toS) with
            | some t => some (f, t, rest2)
            | none =>
              match parseDate (zeroPad 4 f.year ++
                  ('-' :: (zeroPad 2 f.month ++ '-' :: toS))) with
              | some t => some (f, t, rest2)
              | none => none
  match branch1 with
  | some r => some r
  | none =>
    match splitOnce [' '] name with
    | none => none
    | some (fromS, rest) =>
      match parseDate fromS with
      | none => none
      | some f => some (f, f, rest)

/-- `FilesInterval::try_split`. -/
def trySplit (name : List Char) : Option (FilesInterval × List Char) :=
  match stageSplit name with
  | none => none
  | some (f, t, rest) =>
    match fromDateD f t with
    | .error _ => none
    | .ok i => some (i, rest)

/-- `FilesInterval::try_from_name`. -/
def tryFromName (name : List Char) : Option FilesInterval :=
  (trySplit name).map (fun p => p.1)

/-- `FilesInterval::delta` in seconds (a chrono `TimeDelta` is a signed
second count; `num_days` is truncated division by 86400). -/
def deltaSecs (i : FilesInterval) : Int :=
  (dtToSec i.ivTo : Int) - (dtToSec i.ivFrom : Int)

/-- `Display for FilesInterval`: compact date-range rendering. -/
def fmtInterval (i : FilesInterval) : List Char :=
  let r := fmtDate i.ivFrom.date
  if i.ivFrom.date = i.ivTo.date then r
  else
    r ++ sepStr ++
      (if i.ivFrom.date.year ≠ i.ivTo.date.year then fmtDate i.ivTo.date
       else if i.ivFrom.date.month ≠ i.ivTo.date.month then
         zeroPad 2 i.ivTo.date.month ++ '-' :: zeroPad 2 i.ivTo.date.day
       else zeroPad 2 i.ivTo.date.day)

/-- Filesystem path, modelled as directory components plus a final
component (Rust `PathBuf`; `with_file_name` swaps the final component,
comparison is component-wise lexicographic). -/
structure PathM where
  dir : List (List Char)
  base : List Char
deriving DecidableEq, Repr

/-- Byte-lexicographic strict order on strings (Rust `str`/`OsStr` `Ord`). -/
def strLtB : List Char → List Char → Bool
  | [], [] => false
  | [], _ :: _ => true
  | _ :: _, [] => false
  | a :: as, b :: bs =>
    if a.val < b.val then true
    else if a.val = b.val then strLtB as bs
    else false

/-- Lexicographic `≤` on component lists (Rust `Path` `Ord`). -/
def compsLeB : List (List Char) → List (List Char) → Bool
  | [], _ => true
  | _ :: _, [] => false
  | a :: as, b :: bs =>
    if strLtB a b then true
    else if a = b then compsLeB as bs
    else false

/-- `≤` on paths, all components compared in order. -/
def pathLeB (p q : PathM) : Bool :=
  compsLeB (p.dir ++ [p.base]) (q.dir ++ [q.base])

/-- `PathBuf::with_file_name`. -/
def withFileName (p : PathM) (nb : List Char) : PathM := ⟨p.dir, nb⟩

/-- Start of the extension (suffix after the last dot), if any dot occurs. -/
def afterLastDot : List Char → Option (List Char)
  | [] => none
  | c :: cs =>
    match afterLastDot cs with
    | some e => some e
    | none => if c = '.' then some cs else none

/-- Rust `Path::extension` of the final component: the part after the last
dot, none if there is no dot or the only dot is leading. -/
def extensionOf (base : List Char) : Option (List Char) :=
  match base with
  | [] => none
  | _ :: rest => afterLastDot rest

/-- `File` (src/file.rs): a path plus the EXIF creation timestamp. -/
structure File where
  path : PathM
  created : DateTime
deriving DecidableEq, Repr

/-- `get_sorted::<ByCreatedDate<&File>>`: stable sort by creation time. -/
def sortByCreated (fs : List File) : List File :=
  fs.mergeSort (fun a b => dtLeB a.created b.created)

/-- `get_sorted::<ByPath<&File>>`: stable sort by path. -/
def sortByPath (fs : List File) : List File :=
  fs.mergeSort (fun a b => pathLeB a.path b.path)

/-- `Files::interval`: `[min created, max created]`, `none` when empty. -/
def filesInterval (fs : List File) : Option FilesInterval :=
  match fs with
  | [] => none
  | f :: rest =>
    some ⟨rest.foldl (fun a g => if dtLeB g.created a then g.created else a) f.created,
          rest.foldl (fun a g => if dtLeB a g.created then g.created else a) f.created⟩

/-- `Files::rename_files`: sort by path, then give the 1-based `i`-th file
the name `"<base> <i padded with {:04}>"` plus the original extension. -/
def renameFiles (fs : List File) (name : List Char) : List (File × PathM) :=
  (sortByPath fs).enum.map fun p =>
    (p.2, withFileName p.2.path
      (name ++ ' ' :: zeroPad 4 (p.1 + 1) ++
        (match extensionOf p.2.path.base with
         | some e => '.' :: e
         | none => [])))

/-- One step of the fold inside `Files::group_by_days`: start a new group
when the calendar date changes, else extend the current group. -/
def gbdStep (s : Date × List File × List (List File)) (f : File) :
    Date × List File × List (List File) :=
  match s with
  | (last, group, acc) =>
    if last ≠ f.created.date then (f.created.date, [f], acc ++ [group])
    else (last, group ++ [f], acc)

/-- `Files::group_by_days`: sort chronologically, then split into runs of
equal calendar date; the empty collection gives no groups. -/
def groupByDays (fs : List File) : List (List File) :=
  match sortByCreated fs with
  | [] => []
  | f :: rest =>
    match (f :: rest).foldl gbdStep (f.created.date, [], []) with
    | (_, lastGroup, acc) => acc ++ [lastGroup]

/-- `NameStatus` (src/directory.rs). -/
inductive NameStatus where
  | Valid
  | Invalid
  | SuperSet
  | NoDate
deriving DecidableEq, Repr

/-- `Directory`: the directory path plus the files found inside it. -/
structure Directory where
  directory : List (List Char)
  files : List File

/-- `Directory::get_status`: exact day-range match first, then containment,
then mismatch; no recognized date gives `NoDate` (Rust `NameStatus::None`). -/
def getStatus (interval : FilesInterval) (name : List Char) : NameStatus :=
  match tryFromName name with
  | some p =>
    if p.ivFrom.date = interval.ivFrom.date ∧ p.ivTo.date = interval.ivTo.date then
      .Valid
    else if dtLeB p.ivFrom interval.ivFrom && dtLeB interval.ivTo p.ivTo then
      .SuperSet
    else .Invalid
  | none => .NoDate

/-- Error text of `Directory::interval` when the collection is empty. -/
def noIntervalMsg : List Char := "Does not get interval".toList

/-- Error text of `Directory::name`/`rename` when the path has no final
component. -/
def noNameMsg : List Char := "Invalid directory name".toList

/-- The too-large-interval error of `Directory::rename`, quoting the bounds
and the day count. -/
def tooLargeMsg (i : FilesInterval) : List Char :=
  "Interval from ".toList ++ fmtDateTime i.ivFrom ++ " to ".toList
    ++ fmtDateTime i.ivTo ++ " is too large (".toList
    ++ intRepr (Int.tdiv (deltaSecs i) 86400) ++ " days)".toList

/-- `Directory::name_status`. -/
def nameStatus (d : Directory) : Except (List Char) NameStatus :=
  match filesInterval d.files with
  | none => .error noIntervalMsg
  | some i =>
    match d.directory.getLast? with
    | none => .error noNameMsg
    | some n => .ok (getStatus i n)

/-- `Directory::rename`: reject over-wide intervals
(`delta.abs().num_days() > max_interval`), then keep the path for
`Valid`/`SuperSet` and prepend the formatted interval to the old name for
`Invalid`/`NoDate`. -/
def rename (d : Directory) (maxInterval : Nat) :
    Except (List Char) (NameStatus × List (List Char)) :=
  match filesInterval d.files with
  | none => .error noIntervalMsg
  | some i =>
    if (deltaSecs i).natAbs / 86400 > maxInterval then .error (tooLargeMsg i)
    else
      match d.directory.getLast? with
      | none => .error noNameMsg
      | some oldName =>
        let st := getStatus i oldName
        .ok (st,
          match st with
          | .Valid => d.directory
          | .Invalid => d.directory.dropLast ++ [fmtInterval i ++ ' ' :: oldName]
          | .SuperSet => d.directory
          | .NoDate => d.directory.dropLast ++ [fmtInterval i ++ ' ' :: oldName])

/-- Step function of `digitsToNat`. -/
def dStep (acc : Nat) (c : Char) : Nat := acc * 10 + (c.toNat - 48)

/-- Calendar validity of a `Date`, as checked by `from_ymd_opt`. -/
def ValidDate (d : Date) : Prop :=
  1 ≤ d.month ∧ d.month ≤ 12 ∧ 1 ≤ d.day ∧ d.day ≤ daysInMonth d.year d.month

instance (d : Date) : Decidable (ValidDate d) := by
  unfold ValidDate
  infer_instance

/-- The whole-day interval of a date pair, as built by `from_date`. -/
def dayInterval (a b : Date) : FilesInterval := ⟨⟨a, 0, 0, 0⟩, ⟨b, 23, 59, 59⟩⟩

/-- Lexicographic `≤` on equal-length numeric keys. -/
def lexNatLe : List Nat → List Nat → Prop
  | [], _ => True
  | _ :: _, [] => False
  | a :: as, b :: bs => a < b ∨ (a = b ∧ lexNatLe as bs)

/-- The six-component comparison key of a timestamp. -/
def dtKey (t : DateTime) : List Nat :=
  [t.date.year, t.date.month, t.date.day, t.hour, t.minute, t.second]

/-- Calendar-date part of the comparison key. -/
def dateKey (d : Date) : List Nat := [d.year, d.month, d.day]

/-- `≤` on calendar dates. -/
def DLe (a b : Date) : Prop := lexNatLe (dateKey a) (dateKey b)

/-- All of `g1` is on strictly earlier calendar dates than all of `g2`. -/
def StrictGrp (g1 g2 : List File) : Prop :=
  ∀ x ∈ g1, ∀ y ∈ g2,
    DLe x.created.date y.created.date ∧ x.created.date ≠ y.created.date

/-- Does the token before the first space of `rest` fail all three
second-date interpretations (`yyyy-mm-dd`, `mm-dd` with the year of `f`,
`dd` with the year and month of `f`)? -/
def secondTokenUnparsable (f : Date) (rest : List Char) : Bool :=
  match splitOnce [' '] rest with
  | none => false
  | some (toS, _) =>
    (parseDate toS).isNone &&
    (parseDate (zeroPad 4 f.year ++ '-' :: toS)).isNone &&
    (parseDate (zeroPad 4 f.year ++ ('-' :: (zeroPad 2 f.month ++ '-' :: toS)))).isNone

/-- The sequence-number padding width as the spec words it (for comparison
with the code): the number of digits of the total count, at least 1. -/
def specPadWidth (n : Nat) : Nat := max 1 (natRepr n).length

/-- Concrete data for instantiations: May 1st, 2025. -/
def d0501 : Date := ⟨2025, 5, 1⟩

/-- Concrete data: May 2nd, 2025. -/
def d0502 : Date := ⟨2025, 5, 2⟩

/-- Concrete data: June 2nd, 2025. -/
def d0602 : Date := ⟨2025, 6, 2⟩

/-- Concrete data: a photo taken at noon of May 1st, 2025 (no path). -/
def noonFile : File := ⟨⟨[], []⟩, ⟨d0501, 12, 0, 0⟩⟩

/-- Concrete data: a photo at 23:00 of May 1st, 2025. -/
def lateFile : File := ⟨⟨[], []⟩, ⟨d0501, 23, 0, 0⟩⟩

/-- Concrete data: a photo at 01:00 of May 2nd, 2025 — on the next calendar
day but only 7200 seconds after `lateFile`. -/
def earlyFile : File := ⟨⟨[], []⟩, ⟨d0502, 1, 0, 0⟩⟩

/-- Concrete data: a photo at noon of May 3rd, 2025. -/
def may3File : File := ⟨⟨[], []⟩, ⟨⟨2025, 5, 3⟩, 12, 0, 0⟩⟩

/-- Concrete data: a directory named with the wrong date. -/
def wrongDateDir : Directory :=
  ⟨[['.'], "2025-05-03 dir name".toList], [noonFile]⟩

/-- Concrete data: a dateless directory holding `lateFile` and `earlyFile`. -/
def twoDayDir : Directory :=
  ⟨[['.'], "dir name".toList], [lateFile, earlyFile]⟩

/-- Concrete data: a directory whose files span May 1st to May 3rd. -/
def wideDir : Directory :=
  ⟨[['.'], "Too long interval".toList], [noonFile, may3File]⟩

/-- Concrete data: a directory with no files. -/
def emptyDir : Directory := ⟨[['.'], "dir name".toList], []⟩

/-- Concrete data: the path-sorted file triple of the spec's sequential
rename scenario. -/
def scenarioFiles : List File :=
  [⟨⟨[['.']], "a.png".toList⟩, ⟨d0501, 12, 0, 0⟩⟩,
   ⟨⟨[['.']], "b.jpg".toList⟩, ⟨d0501, 12, 0, 0⟩⟩,
   ⟨⟨[['.']], "c".toList⟩, ⟨d0501, 12, 0, 0⟩⟩]

/-! ### Decimal rendering: digits, value, length -/

theorem decChar_facts {k : Nat} (h : k < 10) :
    (decChar k).isDigit = true ∧ (decChar k).toNat = 48 + k ∧
      decChar k ≠ ' ' ∧ decChar k ≠ '-' := by
  interval_cases k <;> exact ⟨by decide, by decide, by decide, by decide⟩

theorem natDigitsFuel_append (fuel : Nat) :
    ∀ (n : Nat) (acc : List Char),
      natDigitsFuel fuel n acc = natDigitsFuel fuel n [] ++ acc := by
  induction fuel with
  | zero => intro n acc; simp [natDigitsFuel]
  | succ fuel ih =>
    intro n acc
    by_cases h : n = 0
    · simp [natDigitsFuel, h]
    · rw [natDigitsFuel, natDigitsFuel, if_neg h, if_neg h,
        ih (n / 10) (decChar (n % 10) :: acc), ih (n / 10) [decChar (n % 10)]]
      simp

theorem natDigitsFuel_digit (fuel : Nat) :
    ∀ (n : Nat) (acc : List Char), (∀ c ∈ acc, c.isDigit = true) →
      ∀ c ∈ natDigitsFuel fuel n acc, c.isDigit = true := by
  induction fuel with
  | zero => intro n acc hacc c hc; exact hacc c hc
  | succ fuel ih =>
    intro n acc hacc c hc
    by_cases h : n = 0
    · rw [natDigitsFuel, if_pos h] at hc; exact hacc c hc
    · rw [natDigitsFuel, if_neg h] at hc
      refine ih (n / 10) _ ?_ c hc
      intro x hx
      rcases List.mem_cons.mp hx with h1 | h2
      · subst h1; exact (decChar_facts (Nat.mod_lt n (by omega))).1
      · exact hacc x h2

theorem digitsToNat_eq_foldl (s : List Char) : digitsToNat s = s.foldl dStep 0 := rfl

theorem natDigitsFuel_val (fuel : Nat) :
    ∀ (n : Nat), n ≤ fuel → ∀ (a : Nat),
      (natDigitsFuel fuel n []).foldl dStep a =
        a * 10 ^ (natDigitsFuel fuel n []).length + n := by
  induction fuel with
  | zero => intro n hn a; interval_cases n; simp [natDigitsFuel]
  | succ fuel ih =>
    intro n hn a
    by_cases h : n = 0
    · simp [natDigitsFuel, h]
    · rw [natDigitsFuel, if_neg h, natDigitsFuel_append]
      have hdiv : n / 10 ≤ fuel := by
        have hlt : n / 10 < n := Nat.div_lt_self (Nat.pos_of_ne_zero h) (by omega)
        omega
      rw [List.foldl_append, ih (n / 10) hdiv a]
      have htn : (decChar (n % 10)).toNat = 48 + n % 10 :=
        (decChar_facts (Nat.mod_lt n (by omega))).2.1
      simp only [List.foldl_cons, List.foldl_nil, dStep, htn, List.length_append,
        List.length_cons, List.length_nil]
      rw [Nat.pow_succ]
      have hmod := Nat.div_add_mod n 10
      ring_nf
      omega

theorem natDigitsFuel_len (fuel : Nat) :
    ∀ (n k : Nat), n ≤ fuel → n < 10 ^ k →
      (natDigitsFuel fuel n []).length ≤ k := by
  induction fuel with
  | zero => intro n k hn hk; interval_cases n; simp [natDigitsFuel]
  | succ fuel ih =>
    intro n k hn hk
    by_cases h : n = 0
    · simp [natDigitsFuel, h]
    · rw [natDigitsFuel, if_neg h, natDigitsFuel_append]
      have hk1 : 1 ≤ k := by
        by_contra hc
        have : k = 0 := by omega
        subst this
        simp at hk
        omega
      have hdiv : n / 10 ≤ fuel := by
        have hlt : n / 10 < n := Nat.div_lt_self (Nat.pos_of_ne_zero h) (by omega)
        omega
      have hdk : n / 10 < 10 ^ (k - 1) := by
        rw [Nat.div_lt_iff_lt_mul (by omega)]
        calc n < 10 ^ k := hk
        _ = 10 ^ (k - 1) * 10 := by
            rw [← Nat.pow_succ]
            congr 1
            omega
      have := ih (n / 10) (k - 1) hdiv hdk
      simp only [List.length_append, List.length_cons, List.length_nil]
      omega

theorem natRepr_ne_nil (n : Nat) : natRepr n ≠ [] := by
  unfold natRepr
  by_cases h : n = 0
  · simp [h]
  · rw [if_neg h]
    cases n with
    | zero => exact absurd rfl h
    | succ m =>
      rw [natDigitsFuel, if_neg h, natDigitsFuel_append]
      simp

theorem natRepr_digit (n : Nat) : ∀ c ∈ natRepr n, c.isDigit = true := by
  unfold natRepr
  by_cases h : n = 0
  · simp [h]
  · rw [if_neg h]
    exact natDigitsFuel_digit n n [] (by simp)

theorem natRepr_len {n k : Nat} (h1 : 1 ≤ k) (h2 : n < 10 ^ k) :
    (natRepr n).length ≤ k := by
  unfold natRepr
  by_cases h : n = 0
  · simp [h]; omega
  · rw [if_neg h]
    exact natDigitsFuel_len n n k (le_refl n) h2

theorem digitsToNat_natRepr (n : Nat) : digitsToNat (natRepr n) = n := by
  rw [digitsToNat_eq_foldl]
  unfold natRepr
  by_cases h : n = 0
  · simp [h, dStep]
  · rw [if_neg h, natDigitsFuel_val n n (le_refl n) 0]
    simp

theorem zeroPad_len {w n : Nat} (h : (natRepr n).length ≤ w) :
    (zeroPad w n).length = w := by
  simp [zeroPad]
  omega

theorem zeroPad_digit (w n : Nat) : ∀ c ∈ zeroPad w n, c.isDigit = true := by
  intro c hc
  rcases List.mem_append.mp hc with h | h
  · rw [List.eq_of_mem_replicate h]; decide
  · exact natRepr_digit n c h

theorem foldl_replicate_zero (k : Nat) :
    ∀ a : Nat, (List.replicate k '0').foldl dStep a = a * 10 ^ k := by
  induction k with
  | zero => intro a; simp
  | succ k ih =>
    intro a
    rw [List.replicate_succ, List.foldl_cons, ih]
    simp [dStep]
    ring

theorem digitsToNat_zeroPad (w n : Nat) : digitsToNat (zeroPad w n) = n := by
  rw [digitsToNat_eq_foldl, zeroPad, List.foldl_append, foldl_replicate_zero]
  rw [Nat.zero_mul]
  exact (digitsToNat_eq_foldl (natRepr n)).symm.trans (digitsToNat_natRepr n)

/-! ### Scanner lemmas: takeDigits, parseNum, splitOnce -/

theorem takeDigits_spec :
    ∀ (w : Nat) (l r : List Char), (∀ c ∈ l, c.isDigit = true) → l.length ≤ w →
      (l.length < w → ∀ c, r.head? = some c → c.isDigit = false) →
      takeDigits w (l ++ r) = (l, r) := by
  intro w
  induction w with
  | zero =>
    intro l r hdig hlen _
    have : l = [] := List.length_eq_zero.mp (by omega)
    subst this
    simp [takeDigits]
  | succ w ih =>
    intro l r hdig hlen hstop
    cases l with
    | nil =>
      cases r with
      | nil => simp [takeDigits]
      | cons c cs =>
        have : c.isDigit = false := hstop (by simp) c (by simp)
        simp [takeDigits, this]
    | cons c cs =>
      have hc : c.isDigit = true := hdig c (by simp)
      have hrec : takeDigits w (cs ++ r) = (cs, r) := by
        refine ih cs r (fun x hx => hdig x (by simp [hx])) (by simpa using hlen) ?_
        intro hlt x hx
        exact hstop (by simp; omega) x hx
      simp [takeDigits, hc, hrec]

theorem parseNum_spec {w : Nat} {l r : List Char} (hne : l ≠ [])
    (hdig : ∀ c ∈ l, c.isDigit = true) (hlen : l.length ≤ w)
    (hstop : l.length < w → ∀ c, r.head? = some c → c.isDigit = false) :
    parseNum w (l ++ r) = some (digitsToNat l, r) := by
  simp [parseNum, takeDigits_spec w l r hdig hlen hstop, hne]

theorem splitOnce_at (sep r : List Char) (h0 : sep.head? = some ' ') :
    ∀ (l : List Char), ' ' ∉ l → splitOnce sep (l ++ (sep ++ r)) = some (l, r) := by
  obtain ⟨st, hs⟩ : ∃ t, sep = ' ' :: t := by
    cases sep with
    | nil => simp at h0
    | cons a t =>
      have : a = ' ' := by simpa using h0
      exact ⟨t, by rw [this]⟩
  subst hs
  intro l
  induction l with
  | nil =>
    intro _
    rw [List.nil_append, List.cons_append, splitOnce]
    have hpre : (' ' :: st).isPrefixOf (' ' :: (st ++ r)) = true := by
      apply List.isPrefixOf_iff_prefix.mpr
      simp
    rw [if_pos hpre]
    simp [List.drop_left]
  | cons c cs ih =>
    intro hl
    have hc : c ≠ ' ' := fun h => hl (by simp [h])
    have hnp : ¬ (' ' :: st).isPrefixOf (c :: (cs ++ (' ' :: st ++ r))) = true := by
      rw [List.isPrefixOf_iff_prefix, List.cons_prefix_cons]
      rintro ⟨h1, _⟩
      exact hc h1.symm
    rw [List.cons_append, splitOnce, if_neg hnp, ih (fun h => hl (by simp [h]))]
    rfl

theorem splitOnce_none (sep : List Char) (h0 : sep.head? = some ' ') :
    ∀ (s : List Char), ' ' ∉ s → splitOnce sep s = none := by
  have hsep : ¬ sep.isEmpty = true := by
    cases sep with
    | nil => simp at h0
    | cons a t => simp
  intro s
  induction s with
  | nil => intro _; simp [splitOnce, hsep]
  | cons c cs ih =>
    intro hs
    have hc : c ≠ ' ' := fun h => hs (by simp [h])
    have hnp : ¬ sep.isPrefixOf (c :: cs) = true := by
      cases sep with
      | nil => simp at h0
      | cons a t =>
        have ha : a = ' ' := by simpa using h0
        subst ha
        rw [List.isPrefixOf_iff_prefix, List.cons_prefix_cons]
        rintro ⟨h1, _⟩
        exact hc h1.symm
    rw [splitOnce, if_neg hnp, ih (fun h => hs (by simp [h]))]
    rfl

theorem splitOnce_sepStr_skip (r : List Char) (hr : ' ' ∉ r)
    (hrh : r.head? ≠ some '-') :
    ∀ (l : List Char), ' ' ∉ l → splitOnce sepStr (l ++ ' ' :: r) = none := by
  intro l
  induction l with
  | nil =>
    intro _
    rw [List.nil_append]
    have hnp : ¬ sepStr.isPrefixOf (' ' :: r) = true := by
      cases r with
      | nil => decide
      | cons b bs =>
        have hb : b ≠ '-' := by
          intro h
          exact hrh (by simp [h])
        show ¬ (' ' :: ['-', ' ']).isPrefixOf (' ' :: b :: bs) = true
        rw [List.isPrefixOf_iff_prefix, List.cons_prefix_cons, List.cons_prefix_cons]
        rintro ⟨_, h1, _⟩
        exact hb h1.symm
    rw [splitOnce, if_neg hnp, splitOnce_none sepStr (by simp [sepStr]) r hr]
    rfl
  | cons c cs ih =>
    intro hl
    have hc : c ≠ ' ' := fun h => hl (by simp [h])
    have hnp : ¬ sepStr.isPrefixOf (c :: (cs ++ ' ' :: r)) = true := by
      show ¬ (' ' :: ['-', ' ']).isPrefixOf (c :: (cs ++ ' ' :: r)) = true
      rw [List.isPrefixOf_iff_prefix, List.cons_prefix_cons]
      rintro ⟨h1, _⟩
      exact hc h1.symm
    rw [List.cons_append, splitOnce, if_neg hnp, ih (fun h => hl (by simp [h]))]
    rfl

/-! ### Date parsing and formatting round-trip -/

theorem daysInMonth_le (y m : Nat) : daysInMonth y m ≤ 31 := by
  unfold daysInMonth
  repeat' split
  all_goals omega

theorem fromYmd_valid {d : Date} (h : ValidDate d) :
    fromYmd d.year d.month d.day = some d := by
  unfold fromYmd
  rw [if_pos (by exact h)]

theorem zeroPad_ne_nil {w n : Nat} (h : 1 ≤ w) (hn : n < 10 ^ w) :
    zeroPad w n ≠ [] := by
  intro he
  have := zeroPad_len (w := w) (n := n) (natRepr_len h hn)
  rw [he] at this
  simp at this
  omega

theorem parseNum_zeroPad {w n : Nat} (hw : 1 ≤ w) (h : n < 10 ^ w)
    (r : List Char) (hstop : ∀ c, r.head? = some c → c.isDigit = false) :
    parseNum w (zeroPad w n ++ r) = some (n, r) := by
  have hlen : (zeroPad w n).length = w := zeroPad_len (natRepr_len hw h)
  have hs := parseNum_spec (w := w) (l := zeroPad w n) (r := r)
    (zeroPad_ne_nil hw h) (zeroPad_digit w n) (by omega) (fun _ => hstop)
  rw [digitsToNat_zeroPad] at hs
  exact hs

theorem parseNum_zeroPad_lt {w w2 n : Nat} (hw2 : 1 ≤ w2) (hle : w2 ≤ w)
    (h : n < 10 ^ w2) (r : List Char)
    (hstop : ∀ c, r.head? = some c → c.isDigit = false) :
    parseNum w (zeroPad w2 n ++ r) = some (n, r) := by
  have hlen : (zeroPad w2 n).length = w2 := zeroPad_len (natRepr_len hw2 h)
  have hs := parseNum_spec (w := w) (l := zeroPad w2 n) (r := r)
    (zeroPad_ne_nil hw2 h) (zeroPad_digit w2 n) (by omega) (fun _ => hstop)
  rw [digitsToNat_zeroPad] at hs
  exact hs

theorem hyphen_stop : ∀ c : Char, (('-' :: r).head? = some c) → c.isDigit = false := by
  intro c hc
  simp at hc
  rw [← hc]
  decide

theorem nil_stop : ∀ c : Char, (([] : List Char).head? = some c) → c.isDigit = false := by
  intro c hc
  simp at hc

/-- Parsing the canonical `%Y-%m-%d` rendering recovers the numeric triple
(up to the calendar validity check). -/
theorem parseDate_full (y m d : Nat) (hy : y < 10000) (hm : m < 100)
    (hd : d < 100) :
    parseDate (zeroPad 4 y ++ '-' :: (zeroPad 2 m ++ '-' :: zeroPad 2 d)) =
      fromYmd y m d := by
  have h1 : parseNum 4 (zeroPad 4 y ++ '-' :: (zeroPad 2 m ++ '-' :: zeroPad 2 d)) =
      some (y, '-' :: (zeroPad 2 m ++ '-' :: zeroPad 2 d)) :=
    parseNum_zeroPad (by omega) (by norm_num; omega) _ hyphen_stop
  have h2 : parseNum 2 (zeroPad 2 m ++ '-' :: zeroPad 2 d) =
      some (m, '-' :: zeroPad 2 d) :=
    parseNum_zeroPad (by omega) (by norm_num; omega) _ hyphen_stop
  have h3 : parseNum 2 (zeroPad 2 d) = some (d, []) := by
    have := parseNum_zeroPad (w := 2) (n := d) (by omega) (by norm_num; omega)
      [] nil_stop
    simpa using this
  simp [parseDate, h1, h2, h3, expectChar]

/-- A bare `dd`-style token (just a padded number, no hyphen) is not a full
date. -/
theorem parseDate_noHyphen {w2 n : Nat} (hw2 : 1 ≤ w2) (hle : w2 ≤ 4)
    (h : n < 10 ^ w2) :
    parseDate (zeroPad w2 n) = none := by
  have h1 : parseNum 4 (zeroPad w2 n) = some (n, []) := by
    have := parseNum_zeroPad_lt hw2 hle h [] nil_stop
    simpa using this
  simp [parseDate, h1, expectChar]

/-- A `yyyy-dd`-style token (two numbers, one hyphen) is not a full date. -/
theorem parseDate_oneHyphen {w1 w2 y n : Nat} (hw1 : 1 ≤ w1) (hle1 : w1 ≤ 4)
    (hy : y < 10 ^ w1) (hw2 : 1 ≤ w2) (hle2 : w2 ≤ 2) (h : n < 10 ^ w2) :
    parseDate (zeroPad w1 y ++ '-' :: zeroPad w2 n) = none := by
  have h1 : parseNum 4 (zeroPad w1 y ++ '-' :: zeroPad w2 n) =
      some (y, '-' :: zeroPad w2 n) :=
    parseNum_zeroPad_lt hw1 hle1 hy _ hyphen_stop
  have h2 : parseNum 2 (zeroPad w2 n) = some (n, []) := by
    have := parseNum_zeroPad_lt hw2 hle2 h [] nil_stop
    simpa using this
  simp [parseDate, h1, h2, expectChar]

/-- Parsing the formatted date of a valid calendar date recovers it. -/
theorem parseDate_fmtDate {d : Date} (h : ValidDate d) (hy : d.year < 10000) :
    parseDate (fmtDate d) = some d := by
  have hm : d.month < 100 := by
    rcases h with ⟨_, h2, _, _⟩
    omega
  have hd : d.day < 100 := by
    rcases h with ⟨_, _, _, h4⟩
    have := daysInMonth_le d.year d.month
    omega
  rw [fmtDate, parseDate_full d.year d.month d.day hy hm hd, fromYmd_valid h]

theorem fmtDate_chars (d : Date) : ∀ c ∈ fmtDate d, c.isDigit = true ∨ c = '-' := by
  intro c hc
  unfold fmtDate at hc
  simp only [List.mem_append, List.mem_cons] at hc
  rcases hc with h | h | h
  · exact Or.inl (zeroPad_digit 4 d.year c h)
  · exact Or.inr h
  · rcases h with h | h | h
    · exact Or.inl (zeroPad_digit 2 d.month c h)
    · exact Or.inr h
    · exact Or.inl (zeroPad_digit 2 d.day c h)

theorem fmtDate_no_space (d : Date) : ' ' ∉ fmtDate d := by
  intro h
  rcases fmtDate_chars d ' ' h with h1 | h1
  · exact absurd h1 (by decide)
  · exact absurd h1 (by decide)

theorem dateLtB_irrefl (d : Date) : dateLtB d d = false := by
  simp [dateLtB]

theorem fromDateD_ok {a b : Date} (h : dateLtB b a = false) :
    fromDateD a b = .ok (dayInterval a b) := by
  simp [fromDateD, h, dayInterval]

/-- Recognition of a two-date name `"<fmt a> - <tok> x"`: whichever of the
three second-date parse attempts on `tok` first succeeds with `b`, the split
stage returns `(a, b, "x")`. -/
theorem stageSplit_sep_form (a b : Date) (tok : List Char)
    (ha : ValidDate a) (hya : a.year < 10000) (htok : ' ' ∉ tok)
    (hatt : parseDate tok = some b ∨
      (parseDate tok = none ∧
        parseDate (zeroPad 4 a.year ++ '-' :: tok) = some b) ∨
      (parseDate tok = none ∧
        parseDate (zeroPad 4 a.year ++ '-' :: tok) = none ∧
        parseDate (zeroPad 4 a.year ++ ('-' :: (zeroPad 2 a.month ++ '-' :: tok)))
          = some b)) :
    stageSplit (fmtDate a ++ (sepStr ++ (tok ++ (' ' :: ['x'])))) =
      some (a, b, ['x']) := by
  have hsp1 : splitOnce sepStr (fmtDate a ++ (sepStr ++ (tok ++ (' ' :: ['x'])))) =
      some (fmtDate a, tok ++ (' ' :: ['x'])) :=
    splitOnce_at sepStr _ (by simp [sepStr]) _ (fmtDate_no_space a)
  have hsp2 : splitOnce [' '] (tok ++ (' ' :: ['x'])) = some (tok, ['x']) :=
    splitOnce_at [' '] ['x'] (by simp) tok htok
  have hpa : parseDate (fmtDate a) = some a := parseDate_fmtDate ha hya
  rcases hatt with h1 | ⟨h1, h2⟩ | ⟨h1, h2, h3⟩
  · simp [stageSplit, hsp1, hsp2, hpa, h1]
  · simp [stageSplit, hsp1, hsp2, hpa, h1, h2]
  · simp [stageSplit, hsp1, hsp2, hpa, h1, h2, h3]

/-- Recognition of a single-date name `"<fmt a> x"`: the two-date branch
fails (the only space is not part of a `" - "`), and the fallback returns
the date twice with remainder `"x"`. -/
theorem stageSplit_single_form (a : Date) (ha : ValidDate a)
    (hya : a.year < 10000) :
    stageSplit (fmtDate a ++ (' ' :: ['x'])) = some (a, a, ['x']) := by
  have hsp1 : splitOnce sepStr (fmtDate a ++ (' ' :: ['x'])) = none :=
    splitOnce_sepStr_skip ['x'] (by decide) (by decide) (fmtDate a)
      (fmtDate_no_space a)
  have hsp2 : splitOnce [' '] (fmtDate a ++ (' ' :: ['x'])) =
      some (fmtDate a, ['x']) :=
    splitOnce_at [' '] ['x'] (by simp) (fmtDate a) (fmtDate_no_space a)
  have hpa : parseDate (fmtDate a) = some a := parseDate_fmtDate ha hya
  simp [stageSplit, hsp1, hsp2, hpa]

theorem month_lt_of_valid {d : Date} (h : ValidDate d) : d.month < 100 := by
  rcases h with ⟨_, h2, _, _⟩
  omega

theorem day_lt_of_valid {d : Date} (h : ValidDate d) : d.day < 100 := by
  rcases h with ⟨_, _, _, h4⟩
  have := daysInMonth_le d.year d.month
  omega

theorem no_space_pad (w n : Nat) : ' ' ∉ zeroPad w n := by
  intro h
  have := zeroPad_digit w n ' ' h
  exact absurd this (by decide)

theorem no_space_pad_pair (x y : Nat) :
    ' ' ∉ zeroPad 2 x ++ '-' :: zeroPad 2 y := by
  intro h
  simp only [List.mem_append, List.mem_cons] at h
  rcases h with h | h | h
  · exact no_space_pad 2 x h
  · exact absurd h (by decide)
  · exact no_space_pad 2 y h

theorem trySplit_of_stage {s : List Char} {a b : Date} {rest : List Char}
    (h : stageSplit s = some (a, b, rest)) (hab : dateLtB b a = false) :
    trySplit s = some (dayInterval a b, rest) := by
  simp [trySplit, h, fromDateD_ok hab]

/-- Round trip of the compact interval format through `try_split` after
appending a space and the remainder `"x"`, for all valid ordered date
pairs. -/
theorem trySplit_fmtInterval_append {a b : Date} (ha : ValidDate a)
    (hb : ValidDate b) (hya : a.year < 10000) (hyb : b.year < 10000)
    (hab : dateLtB b a = false) :
    trySplit (fmtInterval (dayInterval a b) ++ (' ' :: ['x'])) =
      some (dayInterval a b, ['x']) := by
  by_cases hd : a = b
  · subst hd
    have hf : fmtInterval (dayInterval a a) = fmtDate a := by
      simp [fmtInterval, dayInterval]
    rw [hf]
    exact trySplit_of_stage (stageSplit_single_form a ha hya) (dateLtB_irrefl a)
  · refine trySplit_of_stage ?_ hab
    by_cases hy : a.year = b.year
    · by_cases hm : a.month = b.month
      · -- same year and month: the `dd` form
        have hfi : fmtInterval (dayInterval a b) =
            fmtDate a ++ sepStr ++ zeroPad 2 b.day := by
          simp [fmtInterval, dayInterval, hd, hy, hm]
        rw [hfi, List.append_assoc, List.append_assoc]
        refine stageSplit_sep_form a b (zeroPad 2 b.day) ha hya (no_space_pad 2 b.day)
          (Or.inr (Or.inr ⟨?_, ?_, ?_⟩))
        · exact parseDate_noHyphen (by omega) (by omega)
            (by norm_num; exact day_lt_of_valid hb)
        · exact parseDate_oneHyphen (by omega) (by omega)
            (by norm_num; omega) (by omega) (by omega)
            (by norm_num; exact day_lt_of_valid hb)
        · rw [parseDate_full a.year a.month b.day hya (month_lt_of_valid ha)
            (day_lt_of_valid hb), hy, hm, fromYmd_valid hb]
      · -- same year, different month: the `mm-dd` form
        have hfi : fmtInterval (dayInterval a b) =
            fmtDate a ++ sepStr ++ (zeroPad 2 b.month ++ '-' :: zeroPad 2 b.day) := by
          simp [fmtInterval, dayInterval, hd, hy, hm]
        rw [hfi, List.append_assoc, List.append_assoc]
        refine stageSplit_sep_form a b (zeroPad 2 b.month ++ '-' :: zeroPad 2 b.day)
          ha hya (no_space_pad_pair b.month b.day) (Or.inr (Or.inl ⟨?_, ?_⟩))
        · exact parseDate_oneHyphen (by omega) (by omega)
            (by norm_num; exact month_lt_of_valid hb) (by omega) (by omega)
            (by norm_num; exact day_lt_of_valid hb)
        · rw [parseDate_full a.year b.month b.day hya (month_lt_of_valid hb)
            (day_lt_of_valid hb), hy, fromYmd_valid hb]
    · -- different years: the full second date
      have hfi : fmtInterval (dayInterval a b) =
          fmtDate a ++ sepStr ++ fmtDate b := by
        simp [fmtInterval, dayInterval, hd, hy]
      rw [hfi, List.append_assoc, List.append_assoc]
      refine stageSplit_sep_form a b (fmtDate b) ha hya (fmtDate_no_space b)
        (Or.inl ?_)
      exact parseDate_fmtDate hb hyb

/-! ### Lexicographic order facts for sorting and grouping -/

theorem lexNatLe_trans : ∀ (x y z : List Nat),
    lexNatLe x y → lexNatLe y z → lexNatLe x z := by
  intro x
  induction x with
  | nil => intro y z _ _; trivial
  | cons a as ih =>
    intro y z hxy hyz
    cases y with
    | nil => exact absurd hxy (by simp [lexNatLe])
    | cons b bs =>
      cases z with
      | nil => exact absurd hyz (by simp [lexNatLe])
      | cons c cs =>
        simp only [lexNatLe] at hxy hyz ⊢
        rcases hxy with h1 | ⟨h1, h1r⟩
        · rcases hyz with h2 | ⟨h2, h2r⟩
          · exact Or.inl (by omega)
          · exact Or.inl (by omega)
        · rcases hyz with h2 | ⟨h2, h2r⟩
          · exact Or.inl (by omega)
          · exact Or.inr ⟨by omega, ih bs cs h1r h2r⟩

theorem lexNatLe_total : ∀ (x y : List Nat), lexNatLe x y ∨ lexNatLe y x := by
  intro x
  induction x with
  | nil => intro y; exact Or.inl trivial
  | cons a as ih =>
    intro y
    cases y with
    | nil => exact Or.inr trivial
    | cons b bs =>
      simp only [lexNatLe]
      rcases Nat.lt_trichotomy a b with h | h | h
      · exact Or.inl (Or.inl h)
      · rcases ih bs with h2 | h2
        · exact Or.inl (Or.inr ⟨h, h2⟩)
        · exact Or.inr (Or.inr ⟨h.symm, h2⟩)
      · exact Or.inr (Or.inl h)

theorem lexNatLe_antisymm : ∀ (x y : List Nat),
    lexNatLe x y → lexNatLe y x → x = y := by
  intro x
  induction x with
  | nil =>
    intro y _ hyx
    cases y with
    | nil => rfl
    | cons b bs => exact absurd hyx (by simp [lexNatLe])
  | cons a as ih =>
    intro y hxy hyx
    cases y with
    | nil => exact absurd hxy (by simp [lexNatLe])
    | cons b bs =>
      simp only [lexNatLe] at hxy hyx
      rcases hxy with h1 | ⟨h1, h1r⟩
      · rcases hyx with h2 | ⟨h2, _⟩
        · omega
        · omega
      · rcases hyx with h2 | ⟨h2, h2r⟩
        · omega
        · rw [h1, ih bs h1r h2r]

theorem dtLeB_iff (a b : DateTime) :
    dtLeB a b = true ↔ lexNatLe (dtKey a) (dtKey b) := by
  unfold dtLeB dtKey
  simp only [lexNatLe]
  by_cases h1 : a.date.year = b.date.year <;>
    by_cases h2 : a.date.month = b.date.month <;>
    by_cases h3 : a.date.day = b.date.day <;>
    by_cases h4 : a.hour = b.hour <;>
    by_cases h5 : a.minute = b.minute <;>
    (simp [h1, h2, h3, h4, h5]; try omega)

theorem dtLeB_trans {a b c : DateTime} (h1 : dtLeB a b = true)
    (h2 : dtLeB b c = true) : dtLeB a c = true := by
  rw [dtLeB_iff] at h1 h2 ⊢
  exact lexNatLe_trans _ _ _ h1 h2

theorem dtLeB_total (a b : DateTime) : dtLeB a b = true ∨ dtLeB b a = true := by
  rw [dtLeB_iff, dtLeB_iff]
  exact lexNatLe_total _ _

theorem DLe_of_dtLeB {a b : DateTime} (h : dtLeB a b = true) :
    DLe a.date b.date := by
  rw [dtLeB_iff] at h
  unfold dtKey at h
  unfold DLe dateKey
  simp only [lexNatLe] at h ⊢
  rcases h with h | ⟨h1, h⟩
  · exact Or.inl h
  refine Or.inr ⟨h1, ?_⟩
  rcases h with h | ⟨h2, h⟩
  · exact Or.inl h
  refine Or.inr ⟨h2, ?_⟩
  rcases h with h | ⟨h3, _⟩
  · exact Or.inl h
  · exact Or.inr ⟨h3, trivial⟩

theorem DLe_trans {a b c : Date} (h1 : DLe a b) (h2 : DLe b c) : DLe a c :=
  lexNatLe_trans _ _ _ h1 h2

theorem DLe_antisymm {a b : Date} (h1 : DLe a b) (h2 : DLe b a) : a = b := by
  have := lexNatLe_antisymm _ _ h1 h2
  unfold dateKey at this
  simp only [List.cons.injEq] at this
  cases a
  cases b
  simp_all

/-! ### The group-by-days fold invariant -/

theorem gbd_fold_inv :
    ∀ (l : List File) (last : Date) (group : List File) (acc : List (List File))
      (last2 : Date) (group2 : List File) (acc2 : List (List File)),
      l.foldl gbdStep (last, group, acc) = (last2, group2, acc2) →
      (∀ f ∈ l, DLe last f.created.date) →
      List.Pairwise (fun a b : File => DLe a.created.date b.created.date) l →
      group ≠ [] →
      (∀ f ∈ group, f.created.date = last) →
      (∀ g ∈ acc, g ≠ []) →
      (∀ g ∈ acc, ∀ x ∈ g, DLe x.created.date last ∧ x.created.date ≠ last) →
      List.Pairwise StrictGrp acc →
      (group2 ≠ [] ∧ (∀ f ∈ group2, f.created.date = last2) ∧
        (∀ g ∈ acc2, g ≠ []) ∧
        (∀ g ∈ acc2, ∀ x ∈ g,
          DLe x.created.date last2 ∧ x.created.date ≠ last2) ∧
        List.Pairwise StrictGrp acc2) := by
  intro l
  induction l with
  | nil =>
    intro last group acc last2 group2 acc2 hfold _ _ hg hgd hacc haccd haccp
    simp only [List.foldl_nil, Prod.mk.injEq] at hfold
    obtain ⟨e1, e2, e3⟩ := hfold
    subst e1; subst e2; subst e3
    exact ⟨hg, hgd, hacc, haccd, haccp⟩
  | cons f rest ih =>
    intro last group acc last2 group2 acc2 hfold hup hpw hg hgd hacc haccd haccp
    rw [List.foldl_cons] at hfold
    rcases List.pairwise_cons.mp hpw with ⟨hf_rest, hpw_rest⟩
    by_cases hlf : last = f.created.date
    · rw [gbdStep, if_neg (by simpa using hlf)] at hfold
      refine ih last (group ++ [f]) acc last2 group2 acc2 hfold ?_ hpw_rest
        (by simp) ?_ hacc haccd haccp
      · intro g hgm
        exact hup g (by simp [hgm])
      · intro x hx
        rcases List.mem_append.mp hx with h | h
        · exact hgd x h
        · simp at h
          subst h
          exact hlf.symm
    · rw [gbdStep, if_pos (by simpa using hlf)] at hfold
      have hDlf : DLe last f.created.date := hup f (by simp)
      refine ih f.created.date [f] (acc ++ [group]) last2 group2 acc2 hfold
        ?_ hpw_rest (by simp) (by simp) ?_ ?_ ?_
      · intro g hgm
        exact hf_rest g hgm
      · intro g hgm
        rcases List.mem_append.mp hgm with h | h
        · exact hacc g h
        · simp at h
          subst h
          exact hg
      · intro g hgm x hx
        rcases List.mem_append.mp hgm with h | h
        · obtain ⟨hle, hne⟩ := haccd g h x hx
          constructor
          · exact DLe_trans hle hDlf
          · intro he
            apply hlf
            exact DLe_antisymm hDlf (he ▸ hle)
        · simp at h
          subst h
          have hxd : x.created.date = last := hgd x hx
          rw [hxd]
          exact ⟨hDlf, hlf⟩
      · rw [List.pairwise_append]
        refine ⟨haccp, by simp, ?_⟩
        intro g1 h1 g2 h2
        simp at h2
        subst h2
        intro x hx y hy
        have hyd : y.created.date = last := hgd y hy
        rw [hyd]
        exact haccd g1 h1 x hx

theorem gbd_fold_flatten :
    ∀ (l : List File) (s : Date × List File × List (List File)),
      ((l.foldl gbdStep s).2.2).flatten ++ (l.foldl gbdStep s).2.1 =
        s.2.2.flatten ++ s.2.1 ++ l := by
  intro l
  induction l with
  | nil => intro s; simp
  | cons f rest ih =>
    intro s
    rw [List.foldl_cons, ih (gbdStep s f)]
    obtain ⟨last, group, acc⟩ := s
    by_cases hlf : last = f.created.date
    · rw [gbdStep, if_neg (by simpa using hlf)]
      simp
    · rw [gbdStep, if_pos (by simpa using hlf)]
      simp

theorem sortByCreated_pairwise (fs : List File) :
    List.Pairwise (fun a b : File => dtLeB a.created b.created = true)
      (sortByCreated fs) := by
  apply List.sorted_mergeSort
  · intro a b c h1 h2
    exact dtLeB_trans h1 h2
  · intro a b
    rcases dtLeB_total a.created b.created with h | h <;> simp [h]

theorem sortByCreated_perm (fs : List File) : (sortByCreated fs).Perm fs :=
  List.mergeSort_perm fs _

/-- C7: `group_by_days` flattens back to the chronologically sorted
collection, which is a permutation of the input; groups are non-empty; no
two distinct groups share a calendar date; the empty collection yields no
groups. -/
theorem groupByDays_contract (fs : List File) :
    (groupByDays fs).flatten = sortByCreated fs ∧
    ((groupByDays fs).flatten).Perm fs ∧
    List.Pairwise (fun a b : File => dtLeB a.created b.created = true)
      ((groupByDays fs).flatten) ∧
    (∀ g ∈ groupByDays fs, g ≠ []) ∧
    List.Pairwise
      (fun g1 g2 => ∀ x ∈ g1, ∀ y ∈ g2, x.created.date ≠ y.created.date)
      (groupByDays fs) ∧
    groupByDays ([] : List File) = [] := by
  have hsorted := sortByCreated_pairwise fs
  have hperm := sortByCreated_perm fs
  have hempty : groupByDays ([] : List File) = [] := by
    simp [groupByDays, sortByCreated]
  cases hs : sortByCreated fs with
  | nil =>
    have hgb : groupByDays fs = [] := by
      unfold groupByDays
      rw [hs]
    rw [hgb]
    have h2 := hperm
    rw [hs] at h2
    exact ⟨by simp, by simpa using h2, by simp, by simp, by simp, hempty⟩
  | cons f rest =>
    have hpw : List.Pairwise
        (fun a b : File => DLe a.created.date b.created.date) (f :: rest) := by
      have := hs ▸ hsorted
      exact this.imp (fun h => DLe_of_dtLeB h)
    rcases List.pairwise_cons.mp hpw with ⟨hf_rest, hpw_rest⟩
    rcases hre : rest.foldl gbdStep (f.created.date, [f], []) with
      ⟨last2, group2, acc2⟩
    have hfold : (f :: rest).foldl gbdStep (f.created.date, [], []) =
        (last2, group2, acc2) := by
      rw [List.foldl_cons]
      have hstep : gbdStep (f.created.date, [], []) f = (f.created.date, [f], []) := by
        simp [gbdStep]
      rw [hstep, hre]
    have hgb : groupByDays fs = acc2 ++ [group2] := by
      simp only [groupByDays, hs, hfold]
    obtain ⟨hg2ne, hg2d, haccne, haccd, haccp⟩ :=
      gbd_fold_inv rest f.created.date [f] [] last2 group2 acc2 hre
        hf_rest hpw_rest (by simp) (by simp) (by simp) (by simp) (by simp)
    have hflat : (acc2 ++ [group2]).flatten = f :: rest := by
      have hj := gbd_fold_flatten rest (f.created.date, [f], [])
      rw [hre] at hj
      simp at hj
      simp [List.flatten_append, hj]
    have hstrict : List.Pairwise StrictGrp (acc2 ++ [group2]) := by
      rw [List.pairwise_append]
      refine ⟨haccp, by simp, ?_⟩
      intro g1 h1 g2 h2
      simp at h2
      subst h2
      intro x hx y hy
      have hyd : y.created.date = last2 := hg2d y hy
      rw [hyd]
      exact haccd g1 h1 x hx
    refine ⟨?_, ?_, ?_, ?_, ?_, hempty⟩
    · rw [hgb, hflat]
    · rw [hgb, hflat]
      exact hs ▸ hperm
    · rw [hgb, hflat]
      exact hs ▸ hsorted
    · intro g hg
      rw [hgb] at hg
      rcases List.mem_append.mp hg with h | h
      · exact haccne g h
      · simp at h
        subst h
        exact hg2ne
    · rw [hgb]
      exact hstrict.imp (fun h x hx y hy => (h x hx y hy).2)

/-! ### Claim theorems -/

/-- C2: whenever the name's parsed interval covers exactly the same
calendar-day range as the actual interval, the classifier returns `Valid`
and never `SuperSet`, even though containment also holds there. -/
theorem getStatus_exact_is_valid (i p : FilesInterval) (name : List Char)
    (hp : tryFromName name = some p)
    (h1 : p.ivFrom.date = i.ivFrom.date) (h2 : p.ivTo.date = i.ivTo.date) :
    getStatus i name = .Valid ∧ getStatus i name ≠ .SuperSet := by
  have hv : getStatus i name = .Valid := by
    simp only [getStatus, hp]
    rw [if_pos ⟨h1, h2⟩]
  refine ⟨hv, ?_⟩
  rw [hv]
  intro hc
  cases hc

/-- C2 witness: a single-day name over a noon-to-afternoon actual interval. -/
theorem getStatus_exact_is_valid_witness :
    getStatus ⟨⟨d0501, 12, 0, 0⟩, ⟨d0501, 13, 0, 0⟩⟩ "2025-05-01 x".toList
      = .Valid ∧
    getStatus ⟨⟨d0501, 12, 0, 0⟩, ⟨d0501, 13, 0, 0⟩⟩ "2025-05-01 x".toList
      ≠ .SuperSet :=
  getStatus_exact_is_valid ⟨⟨d0501, 12, 0, 0⟩, ⟨d0501, 13, 0, 0⟩⟩
    (dayInterval d0501 d0501) ("2025-05-01 x".toList) (by decide) (by decide)
    (by decide)

/-- C5: a name whose leading two-date pattern parses to an inverted pair
(`from > to`) yields the no-match result, not an error: `from_date` does
fail internally, but `try_split` converts that to `none`. -/
theorem trySplit_inverted_is_none (name : List Char) (f t : Date)
    (rest : List Char) (h : stageSplit name = some (f, t, rest))
    (hlt : dateLtB t f = true) :
    trySplit name = none ∧ tryFromName name = none ∧
      ∃ e, fromDateD f t = .error e := by
  have he : fromDateD f t = .error ("from date ".toList ++ fmtDate f ++
      " is higher than to date ".toList ++ fmtDate t) := by
    unfold fromDateD
    rw [if_pos hlt]
  refine ⟨?_, ?_, ⟨_, he⟩⟩
  · simp only [trySplit, h, he]
  · simp [tryFromName, trySplit, h, he]

/-- C5 witness: the inverted range from the repository's own test. -/
theorem trySplit_inverted_is_none_witness :
    trySplit "2025-05-02 - 2025-05-01 - Interval is not possilbe".toList
      = none ∧
    tryFromName "2025-05-02 - 2025-05-01 - Interval is not possilbe".toList
      = none ∧
    ∃ e, fromDateD d0502 d0501 = .error e :=
  trySplit_inverted_is_none _ d0502 d0501
    ("- Interval is not possilbe".toList) (by decide) (by decide)

/-- C9: a recognizable pattern needs a space after the date part, so a
string with no space at all — in particular the canonical rendering of any
single-day interval, which is just `YYYY-MM-DD` — is not recognized. -/
theorem tryFromName_needs_space :
    (∀ s : List Char, ' ' ∉ s → tryFromName s = none) ∧
    (∀ a : Date, ValidDate a → a.year < 10000 →
      tryFromName (fmtInterval (dayInterval a a)) = none) := by
  have h1 : ∀ s : List Char, ' ' ∉ s → tryFromName s = none := by
    intro s hs
    have e1 : splitOnce sepStr s = none :=
      splitOnce_none sepStr (by simp [sepStr]) s hs
    have e2 : splitOnce [' '] s = none := splitOnce_none [' '] (by simp) s hs
    simp [tryFromName, trySplit, stageSplit, e1, e2]
  refine ⟨h1, ?_⟩
  intro a ha hya
  have hf : fmtInterval (dayInterval a a) = fmtDate a := by
    simp [fmtInterval, dayInterval]
  rw [hf]
  exact h1 (fmtDate a) (fmtDate_no_space a)

/-- C9 witness: the bare string `"2025-05-01"`, which is exactly the
formatted single-day interval of May 1st, 2025, is not recognized. -/
theorem tryFromName_needs_space_witness :
    tryFromName "2025-05-01".toList = none ∧
    tryFromName (fmtInterval (dayInterval d0501 d0501)) = none :=
  ⟨tryFromName_needs_space.1 ("2025-05-01".toList) (by decide),
   tryFromName_needs_space.2 d0501 (by decide) (by decide)⟩

/-- C10: on a directory with no dated files, `name_status` and `rename`
return errors, while the underlying `Files::interval` models the same
situation as a non-error absence. -/
theorem empty_directory_errors (d : Directory) (maxI : Nat)
    (h : d.files = []) :
    nameStatus d = .error noIntervalMsg ∧
    rename d maxI = .error noIntervalMsg ∧
    filesInterval d.files = none := by
  have hfi : filesInterval d.files = none := by
    rw [h]
    rfl
  refine ⟨?_, ?_, hfi⟩
  · unfold nameStatus
    rw [hfi]
  · unfold rename
    rw [hfi]

/-- C10 witness: a concrete empty directory. -/
theorem empty_directory_errors_witness :
    nameStatus emptyDir = .error noIntervalMsg ∧
    rename emptyDir 0 = .error noIntervalMsg ∧
    filesInterval emptyDir.files = none :=
  empty_directory_errors emptyDir 0 (by rfl)

/-- C1 counterexample: the bare formatted text of the two-day interval
May 1st–2nd parses back to the single-day interval of May 1st (the second
date has no trailing space, so the two-date branch fails and the single-day
fallback fires), and the bare formatted text of a single-day interval does
not parse at all. -/
theorem fmt_parse_roundtrip_fails :
    tryFromName (fmtInterval (dayInterval d0501 d0502)) =
      some (dayInterval d0501 d0501) ∧
    dayInterval d0501 d0501 ≠ dayInterval d0501 d0502 ∧
    tryFromName (fmtInterval (dayInterval d0501 d0501)) = none := by
  refine ⟨by decide, by decide, by decide⟩

/-- C1 amended: the format/parse round trip holds once a space and a
non-empty remainder (here `"x"`) follow the formatted interval — exactly
how the program itself uses the format, as a prefix of a directory name:
for all valid date pairs `a ≤ b` (years below 10000),
`try_split (format (interval a b) ++ " x")` returns the interval unchanged
with remainder `"x"`. -/
theorem fmt_parse_roundtrip_with_rest (a b : Date) (ha : ValidDate a)
    (hb : ValidDate b) (hya : a.year < 10000) (hyb : b.year < 10000)
    (hab : dateLtB b a = false) :
    trySplit (fmtInterval (dayInterval a b) ++ (' ' :: ['x'])) =
      some (dayInterval a b, ['x']) ∧
    tryFromName (fmtInterval (dayInterval a b) ++ (' ' :: ['x'])) =
      some (dayInterval a b) := by
  have h := trySplit_fmtInterval_append ha hb hya hyb hab
  refine ⟨h, ?_⟩
  simp [tryFromName, h]

/-- C1 witness: the same-year different-month pair May 1st / June 2nd. -/
theorem fmt_parse_roundtrip_with_rest_witness :
    trySplit (fmtInterval (dayInterval d0501 d0602) ++ (' ' :: ['x'])) =
      some (dayInterval d0501 d0602, ['x']) ∧
    tryFromName (fmtInterval (dayInterval d0501 d0602) ++ (' ' :: ['x'])) =
      some (dayInterval d0501 d0602) :=
  fmt_parse_roundtrip_with_rest d0501 d0602 (by decide) (by decide)
    (by decide) (by decide) (by decide)

/-- C3: whenever `rename` succeeds, a `Valid` or `SuperSet` status leaves
the path unchanged, and an `Invalid` or absent date prepends the formatted
actual interval and a space to the original name in the same parent. -/
theorem rename_path_shape (d : Directory) (maxI : Nat) (st : NameStatus)
    (p : List (List Char)) (h : rename d maxI = .ok (st, p)) :
    ∃ i oldName, filesInterval d.files = some i ∧
      d.directory.getLast? = some oldName ∧
      ((st = .Valid ∨ st = .SuperSet) → p = d.directory) ∧
      ((st = .Invalid ∨ st = .NoDate) →
        p = d.directory.dropLast ++ [fmtInterval i ++ ' ' :: oldName]) := by
  unfold rename at h
  cases hfi : filesInterval d.files with
  | none =>
    simp only [hfi] at h
    cases h
  | some i =>
    simp only [hfi] at h
    by_cases hbig : (deltaSecs i).natAbs / 86400 > maxI
    · rw [if_pos hbig] at h
      cases h
    · rw [if_neg hbig] at h
      cases hlast : d.directory.getLast? with
      | none =>
        simp only [hlast] at h
        cases h
      | some oldName =>
        simp only [hlast, Except.ok.injEq, Prod.mk.injEq] at h
        obtain ⟨h1, h2⟩ := h
        subst h1
        subst h2
        refine ⟨i, oldName, rfl, rfl, ?_, ?_⟩
        · intro hor
          rcases hor with hv | hv <;> rw [hv]
        · intro hor
          rcases hor with hv | hv <;> rw [hv]

/-- C3 witness: a wrongly dated directory gets the actual interval
prepended. -/
theorem rename_path_shape_witness :
    ∃ i oldName,
      filesInterval wrongDateDir.files = some i ∧
      wrongDateDir.directory.getLast? = some oldName ∧
      ((NameStatus.Invalid = .Valid ∨ NameStatus.Invalid = .SuperSet) →
        [['.'], "2025-05-01 2025-05-03 dir name".toList] =
          wrongDateDir.directory) ∧
      ((NameStatus.Invalid = .Invalid ∨ NameStatus.Invalid = .NoDate) →
        [['.'], "2025-05-01 2025-05-03 dir name".toList] =
          wrongDateDir.directory.dropLast ++
            [fmtInterval i ++ ' ' :: oldName]) :=
  rename_path_shape wrongDateDir 0 .Invalid
    [['.'], "2025-05-01 2025-05-03 dir name".toList] (by rfl)

/-- C4 counterexample: the files of `twoDayDir` lie on two distinct
calendar days, yet `rename` with `max_interval = 0` succeeds, because the
timestamps are only 7200 seconds apart and `num_days` truncates that to 0
days. -/
theorem rename_two_distinct_days_no_error :
    lateFile.created.date ≠ earlyFile.created.date ∧
    rename twoDayDir 0 =
      .ok (.NoDate, [['.'], "2025-05-01 - 02 dir name".toList]) := by
  exact ⟨by decide, by rfl⟩

/-- C4 amended: `rename` aborts with the too-large error exactly when the
truncated whole-day count of the content interval exceeds the policy —
`delta.abs().num_days() > max_interval` — which is implied by, but not
equivalent to, the files spanning distinct calendar days; otherwise it
returns a result. -/
theorem rename_interval_guard (d : Directory) (maxI : Nat)
    (i : FilesInterval) (oldName : List Char)
    (hfi : filesInterval d.files = some i)
    (hold : d.directory.getLast? = some oldName) :
    ((deltaSecs i).natAbs / 86400 > maxI →
      rename d maxI = .error (tooLargeMsg i)) ∧
    (¬ (deltaSecs i).natAbs / 86400 > maxI →
      ∃ st p, rename d maxI = .ok (st, p)) := by
  constructor
  · intro hc
    unfold rename
    simp only [hfi]
    rw [if_pos hc]
  · intro hc
    unfold rename
    simp only [hfi]
    rw [if_neg hc]
    simp only [hold]
    exact ⟨_, _, rfl⟩

/-- C4 witness: a directory spanning May 1st noon to May 3rd noon is
rejected at `max_interval = 0` (its error text quotes `2` days), and
accepted at `max_interval = 2`. -/
theorem rename_interval_guard_witness :
    rename wideDir 0 =
      .error (tooLargeMsg ⟨⟨d0501, 12, 0, 0⟩, ⟨⟨2025, 5, 3⟩, 12, 0, 0⟩⟩) ∧
    ∃ st p, rename wideDir 2 = .ok (st, p) :=
  ⟨(rename_interval_guard wideDir 0 ⟨⟨d0501, 12, 0, 0⟩, ⟨⟨2025, 5, 3⟩, 12, 0, 0⟩⟩
      ("Too long interval".toList) (by rfl) (by rfl)).1 (by decide),
   (rename_interval_guard wideDir 2 ⟨⟨d0501, 12, 0, 0⟩, ⟨⟨2025, 5, 3⟩, 12, 0, 0⟩⟩
      ("Too long interval".toList) (by rfl) (by rfl)).2 (by decide)⟩

/-- C6: for a name `"<full-date> - <rest>"` whose token after the
separator parses as none of the three second-date forms, `try_split` falls
back to the single-day interval of the first date with the remainder being
everything after the first space, rather than erroring or rejecting. -/
theorem trySplit_fallback_single (ds : List Char) (d : Date)
    (rest : List Char) (hpd : parseDate ds = some d) (hns : ' ' ∉ ds)
    (hfail : secondTokenUnparsable d rest = true) :
    trySplit (ds ++ (sepStr ++ rest)) =
      some (dayInterval d d, '-' :: ' ' :: rest) := by
  have hsp1 : splitOnce sepStr (ds ++ (sepStr ++ rest)) = some (ds, rest) :=
    splitOnce_at sepStr rest (by simp [sepStr]) ds hns
  have hsp3 : splitOnce [' '] (ds ++ (sepStr ++ rest)) =
      some (ds, '-' :: ' ' :: rest) := by
    have h := splitOnce_at [' '] ('-' :: ' ' :: rest) (by simp) ds hns
    simpa [sepStr] using h
  cases hsp2 : splitOnce [' '] rest with
  | none =>
    unfold secondTokenUnparsable at hfail
    rw [hsp2] at hfail
    cases hfail
  | some pr =>
    obtain ⟨toS, r2⟩ := pr
    unfold secondTokenUnparsable at hfail
    rw [hsp2] at hfail
    simp only [Bool.and_eq_true, Option.isNone_iff_eq_none] at hfail
    obtain ⟨⟨h1, h2⟩, h3⟩ := hfail
    have hst : stageSplit (ds ++ (sepStr ++ rest)) =
        some (d, d, '-' :: ' ' :: rest) := by
      simp only [stageSplit, hsp1, hsp2, hsp3, hpd, h1, h2, h3]
    simp [trySplit, hst, fromDateD_ok (dateLtB_irrefl d), dayInterval]

/-- C6 witness: the repository's own edge-case name
`"2025-05-01 - Name start with separator"`. -/
theorem trySplit_fallback_single_witness :
    trySplit ("2025-05-01".toList ++
        (sepStr ++ "Name start with separator".toList)) =
      some (dayInterval d0501 d0501,
        '-' :: ' ' :: "Name start with separator".toList) :=
  trySplit_fallback_single ("2025-05-01".toList) d0501
    ("Name start with separator".toList) (by decide) (by decide) (by decide)

/-- C8 counterexample: for the spec's three-file scenario the code pads
every sequence number to width 4 (`photo 0001.png`, ...), not to the
minimum width accommodating the count, which for three files would be one
digit (`photo 1.png`, ...). -/
theorem renameFiles_pads_to_four_not_min :
    (renameFiles scenarioFiles ("photo".toList)).map (fun p => p.2.base) =
      ["photo 0001.png".toList, "photo 0002.jpg".toList,
        "photo 0003".toList] ∧
    specPadWidth scenarioFiles.length = 1 ∧
    zeroPad (specPadWidth scenarioFiles.length) 1 = ['1'] ∧
    (renameFiles scenarioFiles ("photo".toList)).map (fun p => p.2.base) ≠
      ["photo 1.png".toList, "photo 2.jpg".toList, "photo 3".toList] := by
  have hs : sortByPath scenarioFiles = scenarioFiles := by
    unfold sortByPath
    exact List.mergeSort_of_sorted (by decide)
  refine ⟨?_, by decide, by decide, ?_⟩
  · unfold renameFiles
    rw [hs]
    decide
  · unfold renameFiles
    rw [hs]
    decide

/-- C8 amended: the sequential rename plan names the 1-based `k`-th
path-sorted file `"<base> <k zero-padded to width 4>"` plus the original
extension — the width is the constant 4 of the `{:04}` format, independent
of the collection size, and no caller-specified width exists. -/
theorem renameFiles_pad_width_four (fs : List File) (name : List Char)
    (k : Nat) (f : File) (p : PathM)
    (h : (renameFiles fs name)[k]? = some (f, p)) :
    (sortByPath fs)[k]? = some f ∧
    p = withFileName f.path (name ++ ' ' :: zeroPad 4 (k + 1) ++
      (match extensionOf f.path.base with
       | some e => '.' :: e
       | none => [])) := by
  unfold renameFiles at h
  rw [List.getElem?_map, List.enum, List.getElem?_enumFrom] at h
  cases hks : (sortByPath fs)[k]? with
  | none =>
    rw [hks] at h
    simp at h
  | some g =>
    rw [hks] at h
    simp only [Option.map_some', Option.some.injEq, Prod.mk.injEq,
      Nat.zero_add] at h
    obtain ⟨hf, hp⟩ := h
    constructor
    · rw [hf]
    · rw [← hp, hf]

/-- C8 witness: the first scenario file is proposed `"photo 0001.png"`. -/
theorem renameFiles_pad_width_four_witness :
    (sortByPath scenarioFiles)[0]? =
      some ⟨⟨[['.']], "a.png".toList⟩, ⟨d0501, 12, 0, 0⟩⟩ ∧
    (⟨[['.']], "photo 0001.png".toList⟩ : PathM) =
      withFileName (⟨[['.']], "a.png".toList⟩ : PathM)
        ("photo".toList ++ ' ' :: zeroPad 4 (0 + 1) ++
          (match extensionOf ("a.png".toList) with
           | some e => '.' :: e
           | none => [])) :=
  renameFiles_pad_width_four scenarioFiles ("photo".toList) 0
    ⟨⟨[['.']], "a.png".toList⟩, ⟨d0501, 12, 0, 0⟩⟩
    ⟨[['.']], "photo 0001.png".toList⟩
    (by
      unfold renameFiles
      rw [show sortByPath scenarioFiles = scenarioFiles from by
        unfold sortByPath
        exact List.mergeSort_of_sorted (by decide)]
      decide)

end PhotoDater
